import Mathlib

/-!
Verification development for the used-car partner dashboard (src/app.py):
a shallow embedding of its tabular normalization and bucketing pipeline.

Modelling conventions:
* A pandas DataFrame is a `Table`: a list of header strings plus rows of
  cells; a cell is `Option String`, with `none` standing for a missing
  value (NaN).  The live-sheet path delivers every present cell as a
  string, so string cells are the faithful general case.
* Calendar timestamps are integer day numbers (proleptic Gregorian count
  of days from year 0); `pd.Timestamp.normalize` is then the identity and
  day differences are plain integer subtraction.
* Python floats are embedded as rationals (`Rat`); the numeric literals
  reachable in this program are short decimals, which floats represent
  exactly, so exact float equality corresponds to `Rat` equality.
* Library calls (`pd.to_datetime`, `pd.to_numeric`, string methods) are
  modelled structurally from their documented behavior on the inputs this
  program can feed them; each such model carries a doc comment.
* `st.*` UI calls are presentation glue; the pure computations that
  `main` performs on the table (bucketing, metrics, summary) are embedded
  as functions on normalized rows.
-/

/-! ### Column-name normalization and resolution (src/app.py lines 32-58) -/

/-- Split a character list at every character satisfying `p`, keeping empty
pieces (the behavior of repeated separator characters). -/
def splitOnChar (p : Char → Bool) : List Char → List (List Char)
  | [] => [[]]
  | c :: cs =>
    let r := splitOnChar p cs
    if p c then [] :: r
    else
      match r with
      | [] => [[c]]
      | w :: ws => (c :: w) :: ws

/-- Join words with single spaces (Python `" ".join`). -/
def joinSpace : List (List Char) → List Char
  | [] => []
  | [w] => w
  | w :: ws => w ++ ' ' :: joinSpace ws

/-- `normalize_colname` (line 32): `" ".join(str(name).strip().lower().split())` —
lower-case, split on whitespace discarding empty pieces, re-join with single
spaces (which also trims). -/
def normalize_colname (name : String) : String :=
  String.mk (joinSpace
    (((splitOnChar Char.isWhitespace (name.data.map Char.toLower)).filter
      (fun w => !w.isEmpty))))

/-- Lookup in the Python dict `{normalize_colname(c): c for c in df.columns}`:
for duplicate normalized keys the later column wins, so we search the
reversed header list. -/
def dictGet (cols : List String) (key : String) : Option String :=
  cols.reverse.find? (fun c => normalize_colname c == key)

/-- The loop body of `resolve_column` (lines 39-42): walk the wanted names in
order; a hit whose actual header is the empty string is falsy in Python
(`if match:`) and is skipped. -/
def resolveFrom (cols : List String) : List String → Option String
  | [] => none
  | w :: ws =>
    match dictGet cols (normalize_colname w) with
    | some c => if c == "" then resolveFrom cols ws else some c
    | none => resolveFrom cols ws

/-- A pandas DataFrame: header labels plus rows of optional cells. -/
structure Table where
  cols : List String
  rows : List (List (Option String))

/-- `resolve_column` (lines 36-43). -/
def resolve_column (t : Table) (target : String) (aliases : List String) : Option String :=
  resolveFrom t.cols (target :: aliases)

def RENEWAL_COLUMN : String := "Actual renewal date"

def RENEWAL_ALIASES : List String := ["Actual Renewal Date", "Renewal Date", "renewal date"]

/-- `resolve_renewal_column` (lines 46-58): name-based resolution first
(`if resolved:` is a Python truthiness test), then positional fallback to
the 13th column when the table has at least 13 columns. -/
def resolve_renewal_column (t : Table) : Option String :=
  match resolve_column t RENEWAL_COLUMN RENEWAL_ALIASES with
  | some c =>
    if c == "" then
      if 13 ≤ t.cols.length then t.cols.get? 12 else none
    else some c
  | none =>
    if 13 ≤ t.cols.length then t.cols.get? 12 else none

/-! ### Date parsing (src/app.py lines 108-112) -/

def natOfDigits (cs : List Char) : Nat :=
  cs.foldl (fun n c => 10 * n + (c.toNat - 48)) 0

def isLeapYear (y : Nat) : Bool :=
  (y % 4 == 0 && y % 100 != 0) || y % 400 == 0

def daysInMonth (y m : Nat) : Nat :=
  if m == 2 then (if isLeapYear y then 29 else 28)
  else if m == 4 || m == 6 || m == 9 || m == 11 then 30
  else 31

def daysBeforeMonth (y m : Nat) : Nat :=
  (List.range m).foldl (fun acc i => if i == 0 then acc else acc + daysInMonth y i) 0

def leapYearsBefore (y : Nat) : Nat :=
  if y == 0 then 0 else (y - 1) / 4 - (y - 1) / 100 + (y - 1) / 400 + 1

/-- Day number of a proleptic Gregorian calendar date (days since 0000-01-01). -/
def dayNumber (y m d : Nat) : Int :=
  ((365 * y + leapYearsBefore y + daysBeforeMonth y m + (d - 1) : Nat) : Int)

def validDate (y m d : Nat) : Bool :=
  decide (1 ≤ m) && decide (m ≤ 12) && decide (1 ≤ d) && decide (d ≤ daysInMonth y m)

def digitsField (cs : List Char) (maxLen : Nat) : Bool :=
  decide (1 ≤ cs.length) && decide (cs.length ≤ maxLen) && cs.all Char.isDigit

/-- Modelled from `pd.to_datetime(x, format="%Y-%m-%d", errors="coerce")` on a
string: strptime-style exact match of year-month-day separated by `-`
(1-4 year digits, 1-2 month/day digits), with calendar validity checked;
anything else coerces to NaT. -/
def parseStrictISO (s : String) : Option Int :=
  match splitOnChar (· == '-') s.data with
  | [ys, ms, ds] =>
    if digitsField ys 4 && digitsField ms 2 && digitsField ds 2 then
      let y := natOfDigits ys
      let m := natOfDigits ms
      let d := natOfDigits ds
      if validDate y m d then some (dayNumber y m d) else none
    else none
  | _ => none

/-- Modelled from `pd.to_datetime(x, errors="coerce", dayfirst=False)`: the
permissive month-before-day parser, restricted to the two layouts this
program's data exercises — ISO year-month-day, and slash-separated
month/day/year with a 4-digit year.  Unrecognized text coerces to NaT. -/
def parseFlexible (s : String) : Option Int :=
  match parseStrictISO s with
  | some v => some v
  | none =>
    match splitOnChar (· == '/') s.data with
    | [ms, ds, ys] =>
      if digitsField ms 2 && digitsField ds 2 && digitsField ys 4 then
        let y := natOfDigits ys
        let m := natOfDigits ms
        let d := natOfDigits ds
        if validDate y m d then some (dayNumber y m d) else none
      else none
    | _ => none

/-- Per-cell working renewal date: `parsed_iso.fillna(parsed_fallback)`
(lines 110-112) — the strict result when present, else the permissive
result, else NaT; a missing cell parses to NaT on both paths. -/
def parseWorkingDate (cell : Option String) : Option Int :=
  match cell with
  | none => none
  | some s =>
    match parseStrictISO s with
    | some v => some v
    | none => parseFlexible s

/-! ### Numeric coercion and cost cleaning (src/app.py lines 113-129) -/

/-- Character class kept by the regex replacement `[^0-9.-]` → `""`. -/
def allowedNumChar (c : Char) : Bool :=
  c.isDigit || c == '.' || c == '-'

/-- `str.replace(r"[^0-9.-]", "", regex=True)` applied to one cell. -/
def cleanCost (s : String) : String :=
  String.mk (s.data.filter allowedNumChar)

def trimChars (cs : List Char) : List Char :=
  ((cs.dropWhile Char.isWhitespace).reverse.dropWhile Char.isWhitespace).reverse

/-- Unsigned part of a Python float literal over digits and one optional
decimal point: `digits`, `digits.`, `digits.digits` or `.digits`. -/
def parseUnsigned (cs : List Char) : Option Rat :=
  let ip := cs.takeWhile Char.isDigit
  let rest := cs.dropWhile Char.isDigit
  match rest with
  | [] => if ip.isEmpty then none else some ((natOfDigits ip : Nat) : Rat)
  | '.' :: rest2 =>
    let fp := rest2.takeWhile Char.isDigit
    let rest3 := rest2.dropWhile Char.isDigit
    if rest3.isEmpty && !(ip.isEmpty && fp.isEmpty) then
      some (((natOfDigits ip : Nat) : Rat) + ((natOfDigits fp : Nat) : Rat) / (10 : Rat) ^ fp.length)
    else none
  | _ => none

/-- Modelled from `pd.to_numeric(x, errors="coerce")` on a string cell:
strip surrounding whitespace and parse a signed decimal literal; anything
else coerces to NaN.  Exponent forms are omitted — no string reachable
here contains `e` after cleaning, and the CPL sheet column holds plain
decimals. -/
def to_numeric (s : String) : Option Rat :=
  match trimChars s.data with
  | '-' :: cs => (parseUnsigned cs).map (fun q => -q)
  | '+' :: cs => parseUnsigned cs
  | cs => parseUnsigned cs

/-! ### Row enrichment and the normalization pipeline (src/app.py lines 96-136) -/

def FACEBOOK_COHORT : String := "Facebook Group cohort"

def OTHER_COHORT : String := "All Other Partners"

/-- The classifier lambda of line 116: `FACEBOOK_COHORT if v in (15.0, 18.0)
else OTHER_COHORT`, where a NaN `v` (here `none`) fails the membership test. -/
def cohortOf (v : Option Rat) : String :=
  match v with
  | some q => if q = 15 ∨ q = 18 then FACEBOOK_COHORT else OTHER_COHORT
  | none => OTHER_COHORT

/-- Cell of `row` under header `c` (first matching label, `none` when the
label is absent or the row is short). -/
def getCell (cols : List String) (row : List (Option String)) (c : String) : Option String :=
  match cols.findIdx? (· == c) with
  | some i => row.getD i none
  | none => none

/-- `df.rename(columns={fromC: toC})`: every header equal to `fromC` becomes `toC`. -/
def renameCols (cols : List String) (fromC toC : String) : List String :=
  cols.map (fun c => if c == fromC then toC else c)

/-- A row after the enrichment steps of lines 108-129, before the dropna. -/
structure ERow where
  name : Option String
  renewal : Option Int
  cplNumeric : Option Rat
  cohort : String
  costNumeric : Option Rat
deriving DecidableEq

/-- A retained working row (post-dropna, lines 131-135). -/
structure NRow where
  name : String
  renewal : Int
  cplNumeric : Option Rat
  cohort : String
  costNumeric : Option Rat
  daysToRenewal : Int
deriving DecidableEq

/-- Row-wise enrichment of `normalize_partners` (lines 108-129), on the
renamed header list: working renewal date, CPL coercion and cohort when the
exact header `"CPL"` is present, cleaned numeric cost when the exact header
`"Monthly subscription cost"` is present. -/
def enrichRow (cols : List String) (renewalCol : String) (row : List (Option String)) : ERow :=
  { name := getCell cols row "Dealership Group Name"
    renewal := parseWorkingDate (getCell cols row renewalCol)
    cplNumeric :=
      if "CPL" ∈ cols then (getCell cols row "CPL").bind to_numeric else none
    cohort :=
      if "CPL" ∈ cols then cohortOf ((getCell cols row "CPL").bind to_numeric)
      else OTHER_COHORT
    costNumeric :=
      if "Monthly subscription cost" ∈ cols then
        (getCell cols row "Monthly subscription cost").bind (fun s => to_numeric (cleanCost s))
      else none }

/-- The dropna of line 131 plus the day computation of line 132: a row
survives iff its partner name cell is present and its working renewal date
parsed; `Days to Renewal` is the day difference to the as-of date. -/
def finalizeRow (asOf : Int) (e : ERow) : Option NRow :=
  match e.name, e.renewal with
  | some n, some d =>
    some { name := n, renewal := d, cplNumeric := e.cplNumeric, cohort := e.cohort
           costNumeric := e.costNumeric, daysToRenewal := d - asOf }
  | _, _ => none

/-- Sort key of line 133: renewal date ascending, partner name ascending
(lexicographic on code points, as Python compares strings). -/
def rowLE (a b : NRow) : Prop :=
  a.renewal < b.renewal ∨ (a.renewal = b.renewal ∧ a.name.data ≤ b.name.data)

instance : DecidableRel rowLE := fun a b => by unfold rowLE; infer_instance

instance : IsTotal NRow rowLE := by
  constructor
  intro a b
  rcases lt_trichotomy a.renewal b.renewal with h | h | h
  · exact Or.inl (Or.inl h)
  · rcases le_total a.name.data b.name.data with h2 | h2
    · exact Or.inl (Or.inr ⟨h, h2⟩)
    · exact Or.inr (Or.inr ⟨h.symm, h2⟩)
  · exact Or.inr (Or.inl h)

instance : IsTrans NRow rowLE := by
  constructor
  intro a b c hab hbc
  rcases hab with h | ⟨he, hn⟩ <;> rcases hbc with h2 | ⟨he2, hn2⟩
  · exact Or.inl (lt_trans h h2)
  · exact Or.inl (he2 ▸ h)
  · exact Or.inl (he ▸ h2)
  · exact Or.inr ⟨he.trans he2, le_trans hn hn2⟩

/-- `normalize_partners` (lines 96-136).  Resolves the partner column (else
`KeyError`), renames it, resolves the renewal column on the renamed table
(else `KeyError`), enriches every row, drops rows with a missing partner
name or unparseable renewal date, computes days-to-renewal against the
as-of date, and sorts by renewal date then partner name. -/
def normalize_partners (t : Table) (asOf : Int) : Except String (List NRow) :=
  match resolve_column t "Dealership Group Name" [] with
  | none => Except.error "Could not find partner column matching Dealership Group Name."
  | some partnerCol =>
    let cols := renameCols t.cols partnerCol "Dealership Group Name"
    match resolve_renewal_column { cols := cols, rows := t.rows } with
    | none => Except.error "Could not find renewal date column matching Actual renewal date."
    | some renewalCol =>
      Except.ok (List.insertionSort rowLE
        ((t.rows.map (enrichRow cols renewalCol)).filterMap (finalizeRow asOf)))

/-! ### Bucketing, aggregation and presentation (src/app.py lines 181-250, 368-418) -/

/-- `renewal_bucket` (lines 181-182): inclusive day-offset range filter. -/
def renewal_bucket (l : List NRow) (minDays maxDays : Int) : List NRow :=
  l.filter (fun r => decide (minDays ≤ r.daysToRenewal) && decide (r.daysToRenewal ≤ maxDays))

/-- The overdue selection of line 385: `Days to Renewal < 0`. -/
def overdueBucket (l : List NRow) : List NRow :=
  l.filter (fun r => decide (r.daysToRenewal < 0))

/-- The 90+ selection of line 389: `Days to Renewal > 90`. -/
def over90Bucket (l : List NRow) : List NRow :=
  l.filter (fun r => decide (90 < r.daysToRenewal))

/-- The revenue sum of lines 399-418: `fillna(0).sum()` over the cleaned
monthly cost column of a bucket — missing values count as zero in the sum
only. -/
def bucketRevenue (l : List NRow) : Rat :=
  (l.map (fun r => r.costNumeric.getD 0)).sum

/-- Python `round`: round half to even (banker's rounding), as applied to the
revenue sum. -/
def roundHalfEven (q : Rat) : Int :=
  if q - (Rat.floor q : Rat) < 1 / 2 then Rat.floor q
  else if 1 / 2 < q - (Rat.floor q : Rat) then Rat.floor q + 1
  else if Rat.floor q % 2 = 0 then Rat.floor q else Rat.floor q + 1

/-- Insert thousands separators into a digit string given in reverse order
(the format spec `:,`). -/
def group3 : List Char → List Char
  | a :: b :: c :: d :: rest => a :: b :: c :: ',' :: group3 (d :: rest)
  | l => l

def intWithCommas (n : Int) : String :=
  let s := Nat.repr n.natAbs
  (if n < 0 then "-" else "") ++ String.mk (group3 s.data.reverse).reverse

/-- `format_currency` (lines 249-250): `f"£{round(value):,}"`. -/
def format_currency (value : Rat) : String :=
  "£" ++ intWithCommas (roundHalfEven value)

/-- A revenue metric of lines 399-418: the formatted `fillna(0).sum()` of a
bucket's cleaned monthly costs. -/
def revenueMetric (l : List NRow) : String :=
  format_currency (bucketRevenue l)

/-- Sort key of `display_partner_table` (lines 207-209): days-to-renewal,
then the (day-granular) renewal date, then partner name. -/
def rowLEdisp (a b : NRow) : Prop :=
  a.daysToRenewal < b.daysToRenewal ∨ (a.daysToRenewal = b.daysToRenewal ∧ rowLE a b)

instance : DecidableRel rowLEdisp := fun a b => by unfold rowLEdisp; infer_instance

instance : IsTotal NRow rowLEdisp := by
  constructor
  intro a b
  rcases lt_trichotomy a.daysToRenewal b.daysToRenewal with h | h | h
  · exact Or.inl (Or.inl h)
  · rcases IsTotal.total (r := rowLE) a b with h2 | h2
    · exact Or.inl (Or.inr ⟨h, h2⟩)
    · exact Or.inr (Or.inr ⟨h.symm, h2⟩)
  · exact Or.inr (Or.inl h)

instance : IsTrans NRow rowLEdisp := by
  constructor
  intro a b c hab hbc
  rcases hab with h | ⟨he, hn⟩ <;> rcases hbc with h2 | ⟨he2, hn2⟩
  · exact Or.inl (lt_trans h h2)
  · exact Or.inl (he2 ▸ h)
  · exact Or.inl (he ▸ h2)
  · exact Or.inr ⟨he.trans he2, Trans.trans hn hn2⟩

/-- The sorting step of `display_partner_table` (lines 207-209) on a bucket. -/
def display_sort (l : List NRow) : List NRow :=
  List.insertionSort rowLEdisp l

/-- The missing-required-column report of `main` (lines 368-374): partner by
name resolution only, renewal by name resolution with positional fallback. -/
def missing_required_columns (t : Table) : List String :=
  (if (resolve_column t "Dealership Group Name" []).isSome then [] else ["Dealership Group Name"])
    ++ (if (resolve_renewal_column t).isSome then [] else [RENEWAL_COLUMN])

/-! ### Helper lemmas -/

theorem ratFloor_eq (q : ℚ) : Rat.floor q = ⌊q⌋ := by
  rw [Rat.floor_def', Rat.floor_def]

theorem length_filterMap_eq {α β : Type} (f : α → Option β) (xs : List α) :
    (xs.filterMap f).length = (xs.filter (fun a => (f a).isSome)).length := by
  induction xs with
  | nil => rfl
  | cons a xs ih =>
    rw [List.filterMap_cons, List.filter_cons]
    cases hfa : f a <;> simp [hfa, ih]

theorem normalize_partners_ok {t : Table} {asOf : Int} {l : List NRow}
    (h : normalize_partners t asOf = Except.ok l) :
    ∃ pc rc,
      resolve_column t "Dealership Group Name" [] = some pc ∧
      resolve_renewal_column
        { cols := renameCols t.cols pc "Dealership Group Name", rows := t.rows } = some rc ∧
      l = List.insertionSort rowLE
        ((t.rows.map (enrichRow (renameCols t.cols pc "Dealership Group Name") rc)).filterMap
          (finalizeRow asOf)) := by
  unfold normalize_partners at h
  rcases hpc : resolve_column t "Dealership Group Name" [] with _ | pc
  · rw [hpc] at h
    cases h
  · rw [hpc] at h
    simp only at h
    rcases hrc : resolve_renewal_column
        { cols := renameCols t.cols pc "Dealership Group Name", rows := t.rows } with _ | rc
    · rw [hrc] at h
      cases h
    · rw [hrc] at h
      simp only [Except.ok.injEq] at h
      exact ⟨pc, rc, rfl, hrc, h.symm⟩

theorem finalizeRow_some {asOf : Int} {e : ERow} {r : NRow}
    (h : finalizeRow asOf e = some r) :
    e.name = some r.name ∧ e.renewal = some r.renewal ∧ r.cplNumeric = e.cplNumeric ∧
      r.cohort = e.cohort ∧ r.costNumeric = e.costNumeric ∧
      r.daysToRenewal = r.renewal - asOf := by
  rcases e with ⟨n, d, cpl, coh, cost⟩
  cases n <;> cases d <;> simp [finalizeRow] at h
  rcases h with ⟨rfl⟩
  simp

theorem finalizeRow_isSome (asOf : Int) (e : ERow) :
    (finalizeRow asOf e).isSome = (e.name.isSome && e.renewal.isSome) := by
  rcases e with ⟨n, d, cpl, coh, cost⟩
  cases n <;> cases d <;> simp [finalizeRow]

theorem mem_normalize {t : Table} {asOf : Int} {l : List NRow} {r : NRow}
    (h : normalize_partners t asOf = Except.ok l) (hr : r ∈ l) :
    ∃ pc rc row,
      resolve_column t "Dealership Group Name" [] = some pc ∧
      resolve_renewal_column
        { cols := renameCols t.cols pc "Dealership Group Name", rows := t.rows } = some rc ∧
      row ∈ t.rows ∧
      finalizeRow asOf (enrichRow (renameCols t.cols pc "Dealership Group Name") rc row) = some r := by
  obtain ⟨pc, rc, hpc, hrc, rfl⟩ := normalize_partners_ok h
  rw [List.mem_insertionSort, List.mem_filterMap] at hr
  obtain ⟨e, he, hfin⟩ := hr
  rw [List.mem_map] at he
  obtain ⟨row, hrow, rfl⟩ := he
  exact ⟨pc, rc, row, hpc, hrc, hrow, hfin⟩

theorem not_mem_renameCols {cols : List String} {pc c newC : String}
    (hne : c ≠ newC) (h : c ∉ cols) : c ∉ renameCols cols pc newC := by
  intro hmem
  rw [renameCols, List.mem_map] at hmem
  obtain ⟨x, hx, hxe⟩ := hmem
  by_cases hxpc : x == pc
  · rw [if_pos hxpc] at hxe
    exact hne hxe.symm
  · rw [if_neg hxpc] at hxe
    exact h (hxe ▸ hx)

theorem enrichRow_cohort (cols : List String) (rc : String) (row : List (Option String)) :
    (enrichRow cols rc row).cohort = cohortOf ((enrichRow cols rc row).cplNumeric) := by
  by_cases h : "CPL" ∈ cols <;> simp [enrichRow, h, cohortOf]

theorem cohortOf_eq_or (v : Option Rat) :
    cohortOf v = FACEBOOK_COHORT ∨ cohortOf v = OTHER_COHORT := by
  rcases v with _ | q
  · exact Or.inr rfl
  · by_cases h : q = 15 ∨ q = 18 <;> simp [cohortOf, h]

theorem cohortOf_facebook_iff (v : Option Rat) :
    cohortOf v = FACEBOOK_COHORT ↔ v = some 15 ∨ v = some 18 := by
  rcases v with _ | q
  · simp [cohortOf]
    decide
  · by_cases h : q = 15 ∨ q = 18 <;> simp [cohortOf, h]
    · intro heq
      have : FACEBOOK_COHORT ≠ OTHER_COHORT := by decide
      exact absurd heq.symm this

theorem resolveFrom_ne_empty {cols : List String} :
    ∀ {ws : List String} {c : String}, resolveFrom cols ws = some c → c ≠ "" := by
  intro ws
  induction ws with
  | nil => intro c h; cases h
  | cons w ws ih =>
    intro c h
    rw [resolveFrom] at h
    cases hdg : dictGet cols (normalize_colname w) with
    | none =>
      rw [hdg] at h
      exact ih h
    | some c2 =>
      rw [hdg] at h
      simp only at h
      by_cases hc2 : c2 == ""
      · rw [if_pos hc2] at h
        exact ih h
      · rw [if_neg hc2] at h
        injection h with h2
        subst h2
        simpa using hc2

/-! ### Concrete tables used by the claims -/

/-- Two parseable rows (one with an empty-string partner name), one row with
a missing name cell, one row with an unparseable date. -/
def emptyNameTable : Table :=
  { cols := ["Dealership Group Name", "Actual renewal date"]
    rows := [[some "", some "2024-03-15"]] }

/-- A single row whose renewal date parses on neither path. -/
def badDateTable : Table :=
  { cols := ["Dealership Group Name", "Actual renewal date"]
    rows := [[some "A", some "not-a-date"]] }

/-- One retained row, one missing-name row, one unparseable-date row. -/
def c1wTable : Table :=
  { cols := ["Dealership Group Name", "Actual renewal date"]
    rows := [[some "A", some "2024-03-15"], [none, some "2024-03-15"], [some "B", some "nope"]] }

def c1wRow : NRow :=
  { name := "A", renewal := 739325, cplNumeric := none, cohort := OTHER_COHORT,
    costNumeric := none, daysToRenewal := 325 }

def c1wOut : List NRow := [c1wRow]

/-- A table whose only header is whitespace (normalizes to the empty string
but is truthy as a Python string). -/
def wsHeaderTable : Table :=
  { cols := ["  "], rows := [] }

/-- A table whose only header is the literal empty string. -/
def emptyHeaderTable : Table :=
  { cols := [""], rows := [] }

/-! ### Claims -/

/-- Claim C3: for every raw renewal-date value the working renewal date is
the strict ISO year-month-day parse when it succeeds, else the permissive
month-before-day fallback parse, else unparseable; "2024-03-15" parses on
the strict path, "03/15/2024" only on the fallback path, and a row whose
value fails both parses ("not-a-date") is dropped from the working table. -/
theorem claim3_date_parse_order :
    (∀ s : String, parseWorkingDate (some s) = (parseStrictISO s).or (parseFlexible s)) ∧
    parseWorkingDate none = none ∧
    parseStrictISO "2024-03-15" = some (dayNumber 2024 3 15) ∧
    parseStrictISO "03/15/2024" = none ∧
    parseFlexible "03/15/2024" = some (dayNumber 2024 3 15) ∧
    parseStrictISO "not-a-date" = none ∧
    parseFlexible "not-a-date" = none ∧
    normalize_partners badDateTable 739000 = Except.ok [] := by
  refine ⟨fun s => ?_, rfl, by decide, by decide, by decide, by decide, by decide, rfl⟩
  cases h : parseStrictISO s <;> simp [parseWorkingDate, h, Option.or]

/-- Claim C4: the five day-offset buckets — overdue (days < 0), 0-30, 31-60,
61-90 (inclusive ranges) and 90+ (days > 90) — are pairwise disjoint and
jointly exhaustive over any list of retained rows: every pairwise
intersection is empty and the five bucket sizes sum to the number of rows. -/
theorem claim4_buckets_partition :
    (∀ l : List NRow,
      renewal_bucket (overdueBucket l) 0 30 = [] ∧
      renewal_bucket (overdueBucket l) 31 60 = [] ∧
      renewal_bucket (overdueBucket l) 61 90 = [] ∧
      over90Bucket (overdueBucket l) = [] ∧
      renewal_bucket (renewal_bucket l 0 30) 31 60 = [] ∧
      renewal_bucket (renewal_bucket l 0 30) 61 90 = [] ∧
      over90Bucket (renewal_bucket l 0 30) = [] ∧
      renewal_bucket (renewal_bucket l 31 60) 61 90 = [] ∧
      over90Bucket (renewal_bucket l 31 60) = [] ∧
      over90Bucket (renewal_bucket l 61 90) = []) ∧
    (∀ l : List NRow,
      (overdueBucket l).length + (renewal_bucket l 0 30).length +
        (renewal_bucket l 31 60).length + (renewal_bucket l 61 90).length +
        (over90Bucket l).length = l.length) := by
  constructor
  · intro l
    refine ⟨?_, ?_, ?_, ?_, ?_, ?_, ?_, ?_, ?_, ?_⟩ <;>
      (first
        | (rw [overdueBucket, renewal_bucket, List.filter_filter, List.filter_eq_nil_iff]
           intro r _
           simp
           omega)
        | (rw [overdueBucket, over90Bucket, List.filter_filter, List.filter_eq_nil_iff]
           intro r _
           simp
           omega)
        | (rw [renewal_bucket, renewal_bucket, List.filter_filter, List.filter_eq_nil_iff]
           intro r _
           simp
           omega)
        | (rw [renewal_bucket, over90Bucket, List.filter_filter, List.filter_eq_nil_iff]
           intro r _
           simp
           omega))
  · intro l
    induction l with
    | nil => rfl
    | cons r l ih =>
      simp only [overdueBucket, renewal_bucket, over90Bucket, List.filter_cons,
        Bool.and_eq_true, decide_eq_true_eq, List.length_cons] at ih ⊢
      split_ifs <;> (try simp only [List.length_cons]) <;> omega

/-- Claim C10 (counterexample): the claim says resolution reports "not found"
for every table containing a whitespace-only (or empty) header when the
target normalizes to the empty string.  In fact a whitespace-only header is
a truthy Python string, so `resolve_column` returns it even though its
normalized form is empty. -/
theorem claim10_counterexample :
    resolve_column wsHeaderTable "" [] = some "  " ∧ normalize_colname "  " = "" :=
  ⟨rfl, rfl⟩

/-- Claim C10 (amended): `resolve_column` never returns the literally-empty
header — a matched header equal to `""` is falsy and discarded by the
truthiness check, so a table whose matching header is the empty string
resolves to "not found"; a whitespace-only header, by contrast, is truthy
and is returned. -/
theorem claim10_no_empty_result :
    (∀ (t : Table) (target : String) (aliases : List String) (c : String),
      resolve_column t target aliases = some c → c ≠ "") ∧
    resolve_column emptyHeaderTable "" [] = none := by
  constructor
  · intro t target aliases c h
    exact resolveFrom_ne_empty h
  · rfl

theorem claim10_witness :
    resolve_column wsHeaderTable " " [] = some "  " ∧ "  " ≠ "" := by
  constructor
  · rfl
  · exact claim10_no_empty_result.1 wsHeaderTable " " [] "  " rfl

/-- Claim C1 (counterexample): the claim says a row whose partner name is
empty after trimming is dropped.  The code only drops rows whose name cell
is missing (`dropna`), so a present-but-empty partner name survives
normalization with its empty name. -/
theorem claim1_counterexample :
    normalize_partners emptyNameTable 739000 = Except.ok
      [{ name := "", renewal := 739325, cplNumeric := none, cohort := OTHER_COHORT,
         costNumeric := none, daysToRenewal := 325 }] ∧
    trimChars "".data = [] :=
  ⟨rfl, rfl⟩

/-- Claim C1 (amended): every row retained by the normalization pipeline has
a present (non-missing) partner-name cell — possibly empty after trimming —
and a successfully parsed working renewal date, and the retained rows are
exactly the input rows passing those two checks: rows with a missing name
cell or an unparseable renewal date are dropped, and only those. -/
theorem claim1_retention (t : Table) (asOf : Int) (l : List NRow) (pc rc : String)
    (h : normalize_partners t asOf = Except.ok l)
    (hpc : resolve_column t "Dealership Group Name" [] = some pc)
    (hrc : resolve_renewal_column
      { cols := renameCols t.cols pc "Dealership Group Name", rows := t.rows } = some rc) :
    (∀ r ∈ l, ∃ row ∈ t.rows,
        getCell (renameCols t.cols pc "Dealership Group Name") row "Dealership Group Name" =
          some r.name ∧
        parseWorkingDate (getCell (renameCols t.cols pc "Dealership Group Name") row rc) =
          some r.renewal) ∧
    l.length = (t.rows.filter (fun row =>
        (getCell (renameCols t.cols pc "Dealership Group Name") row "Dealership Group Name").isSome &&
        (parseWorkingDate (getCell (renameCols t.cols pc "Dealership Group Name") row rc)).isSome)).length := by
  constructor
  · intro r hr
    obtain ⟨pc2, rc2, row, hpc2, hrc2, hrow, hfin⟩ := mem_normalize h hr
    rw [hpc] at hpc2
    injection hpc2 with hpc2
    subst hpc2
    rw [hrc] at hrc2
    injection hrc2 with hrc2
    subst hrc2
    obtain ⟨hname, hren, _⟩ := finalizeRow_some hfin
    exact ⟨row, hrow, hname, hren⟩
  · obtain ⟨pc2, rc2, hpc2, hrc2, hl⟩ := normalize_partners_ok h
    rw [hpc] at hpc2
    injection hpc2 with hpc2
    subst hpc2
    rw [hrc] at hrc2
    injection hrc2 with hrc2
    subst hrc2
    rw [hl, List.length_insertionSort, length_filterMap_eq]
    rw [List.filter_map, List.length_map]
    congr 1
    apply List.filter_congr
    intro row _
    rw [Function.comp_apply, finalizeRow_isSome]
    rfl

theorem claim1_witness :
    c1wOut.length = (c1wTable.rows.filter (fun row =>
        (getCell (renameCols c1wTable.cols "Dealership Group Name" "Dealership Group Name")
          row "Dealership Group Name").isSome &&
        (parseWorkingDate (getCell (renameCols c1wTable.cols "Dealership Group Name"
          "Dealership Group Name") row "Actual renewal date")).isSome)).length :=
  (claim1_retention c1wTable 739000 c1wOut "Dealership Group Name" "Actual renewal date"
    rfl rfl rfl).2

theorem enrichRow_cpl_absent {cols : List String} (h : "CPL" ∉ cols)
    (rc : String) (row : List (Option String)) :
    (enrichRow cols rc row).cohort = OTHER_COHORT ∧ (enrichRow cols rc row).cplNumeric = none := by
  simp [enrichRow, h]

theorem enrichRow_cost_absent {cols : List String} (h : "Monthly subscription cost" ∉ cols)
    (rc : String) (row : List (Option String)) :
    (enrichRow cols rc row).costNumeric = none := by
  simp [enrichRow, h]

/-- Tables exercising the CPL cohort classification. -/
def c2wTable : Table :=
  { cols := ["Dealership Group Name", "Actual renewal date", "CPL"]
    rows := [[some "A", some "2024-03-15", some "15"], [some "B", some "2024-03-15", some "7"]] }

def c2wRowA : NRow :=
  { name := "A", renewal := 739325, cplNumeric := some 15, cohort := FACEBOOK_COHORT,
    costNumeric := none, daysToRenewal := 325 }

def c2wRowB : NRow :=
  { name := "B", renewal := 739325, cplNumeric := some 7, cohort := OTHER_COHORT,
    costNumeric := none, daysToRenewal := 325 }

def c2wOut : List NRow := [c2wRowA, c2wRowB]

/-- Claim C2: for every retained row the cohort is exactly one of the two
labels, and it is "Facebook Group cohort" iff the coerced CPL value equals
exactly 15 or exactly 18 (no tolerance); invalid or missing CPL coercions,
and a table with no `CPL` column at all, yield "All Other Partners". -/
theorem claim2_cohort_rule (t : Table) (asOf : Int) (l : List NRow)
    (h : normalize_partners t asOf = Except.ok l) :
    (∀ r ∈ l, (r.cohort = FACEBOOK_COHORT ∨ r.cohort = OTHER_COHORT) ∧
      (r.cohort = FACEBOOK_COHORT ↔ r.cplNumeric = some 15 ∨ r.cplNumeric = some 18)) ∧
    ("CPL" ∉ t.cols → ∀ r ∈ l, r.cohort = OTHER_COHORT) := by
  constructor
  · intro r hr
    obtain ⟨pc, rc, row, hpc, hrc, hrow, hfin⟩ := mem_normalize h hr
    obtain ⟨-, -, hcpl, hcoh, -, -⟩ := finalizeRow_some hfin
    rw [hcoh, hcpl, enrichRow_cohort]
    exact ⟨cohortOf_eq_or _, cohortOf_facebook_iff _⟩
  · intro hcpl r hr
    obtain ⟨pc, rc, row, hpc, hrc, hrow, hfin⟩ := mem_normalize h hr
    obtain ⟨-, -, -, hcoh, -, -⟩ := finalizeRow_some hfin
    rw [hcoh]
    exact (enrichRow_cpl_absent
      (not_mem_renameCols (by decide) hcpl) rc row).1

theorem claim2_witness :
    (c2wRowA ∈ c2wOut ∧ c2wRowB ∈ c2wOut) ∧
    c2wRowA.cohort = FACEBOOK_COHORT ∧
    (c2wRowB.cohort = FACEBOOK_COHORT ∨ c2wRowB.cohort = OTHER_COHORT) := by
  have hA := (claim2_cohort_rule c2wTable 739000 c2wOut rfl).1 c2wRowA (by decide)
  have hB := (claim2_cohort_rule c2wTable 739000 c2wOut rfl).1 c2wRowB (by decide)
  exact ⟨⟨by decide, by decide⟩, hA.2.mpr (Or.inl rfl), hB.1⟩

/-- Claim C9: the optional CPL and monthly-cost columns are recognized only
by exact, case-sensitive header equality (`"CPL" in out.columns`,
`"Monthly subscription cost" in out.columns`), not by the normalized/alias
resolution used for required columns: a table without the exact `CPL`
header classifies every row "All Other Partners" (with no coerced CPL),
and one without the exact cost header leaves every cleaned cost missing. -/
theorem claim9_exact_headers (t : Table) (asOf : Int) (l : List NRow)
    (h : normalize_partners t asOf = Except.ok l) :
    ("CPL" ∉ t.cols → ∀ r ∈ l, r.cohort = OTHER_COHORT ∧ r.cplNumeric = none) ∧
    ("Monthly subscription cost" ∉ t.cols → ∀ r ∈ l, r.costNumeric = none) := by
  constructor
  · intro hcpl r hr
    obtain ⟨pc, rc, row, hpc, hrc, hrow, hfin⟩ := mem_normalize h hr
    obtain ⟨-, -, hv, hcoh, -, -⟩ := finalizeRow_some hfin
    obtain ⟨h1, h2⟩ := enrichRow_cpl_absent
      (not_mem_renameCols (show "CPL" ≠ "Dealership Group Name" by decide) hcpl) rc row
    exact ⟨hcoh.trans h1, hv.trans h2⟩
  · intro hcost r hr
    obtain ⟨pc, rc, row, hpc, hrc, hrow, hfin⟩ := mem_normalize h hr
    obtain ⟨-, -, -, -, hv, -⟩ := finalizeRow_some hfin
    exact hv.trans (enrichRow_cost_absent
      (not_mem_renameCols (show "Monthly subscription cost" ≠ "Dealership Group Name" by decide)
        hcost) rc row)

/-- Header variants differing from the exact optional-column names only in
case: the code must not recognize them. -/
def c9wTable : Table :=
  { cols := ["Dealership Group Name", "Actual renewal date", "cpl", "Monthly Subscription Cost"]
    rows := [[some "A", some "2024-03-15", some "15", some "£100"]] }

def c9wRow : NRow :=
  { name := "A", renewal := 739325, cplNumeric := none, cohort := OTHER_COHORT,
    costNumeric := none, daysToRenewal := 325 }

theorem claim9_witness :
    c9wRow ∈ [c9wRow] ∧ (c9wRow.cohort = OTHER_COHORT ∧ c9wRow.cplNumeric = none) ∧
      c9wRow.costNumeric = none := by
  have h9 := claim9_exact_headers c9wTable 739000 [c9wRow] rfl
  exact ⟨by decide, h9.1 (by decide) c9wRow (by decide), h9.2 (by decide) c9wRow (by decide)⟩

theorem dictGet_some {cols : List String} {key c : String} (h : dictGet cols key = some c) :
    c ∈ cols ∧ normalize_colname c = key := by
  rw [dictGet] at h
  have h1 := List.find?_some h
  have h2 := List.mem_of_find?_eq_some h
  exact ⟨List.mem_reverse.mp h2, by simpa using h1⟩

theorem resolveFrom_none {cols : List String} :
    ∀ {ws : List String},
      (∀ w ∈ ws, ∀ c ∈ cols, normalize_colname c ≠ normalize_colname w) →
      resolveFrom cols ws = none := by
  intro ws
  induction ws with
  | nil => intro h; rfl
  | cons w ws ih =>
    intro h
    rw [resolveFrom]
    have hdg : dictGet cols (normalize_colname w) = none := by
      rw [dictGet, List.find?_eq_none]
      intro c hc
      simpa using h w (List.mem_cons_self w ws) c (List.mem_reverse.mp hc)
    rw [hdg]
    exact ih (fun w2 hw2 => h w2 (List.mem_cons_of_mem w hw2))

theorem resolveFrom_some_matched {cols : List String} :
    ∀ {ws : List String} {c : String}, resolveFrom cols ws = some c →
      c ∈ cols ∧ ∃ w ∈ ws, normalize_colname c = normalize_colname w := by
  intro ws
  induction ws with
  | nil => intro c h; cases h
  | cons w ws ih =>
    intro c h
    rw [resolveFrom] at h
    cases hdg : dictGet cols (normalize_colname w) with
    | none =>
      rw [hdg] at h
      obtain ⟨hm, w2, hw2, he⟩ := ih h
      exact ⟨hm, w2, List.mem_cons_of_mem w hw2, he⟩
    | some c2 =>
      rw [hdg] at h
      simp only at h
      by_cases hc2 : c2 == ""
      · rw [if_pos hc2] at h
        obtain ⟨hm, w2, hw2, he⟩ := ih h
        exact ⟨hm, w2, List.mem_cons_of_mem w hw2, he⟩
      · rw [if_neg hc2] at h
        injection h with h2
        subst h2
        obtain ⟨hm, he⟩ := dictGet_some hdg
        exact ⟨hm, w, List.mem_cons_self w ws, he⟩

theorem resolve_renewal_as_fallback (t : Table) :
    resolve_renewal_column t =
      (resolve_column t RENEWAL_COLUMN RENEWAL_ALIASES).or
        (if 13 ≤ t.cols.length then t.cols.get? 12 else none) := by
  rw [resolve_renewal_column]
  cases h : resolve_column t RENEWAL_COLUMN RENEWAL_ALIASES with
  | none => rfl
  | some c =>
    have hne : c ≠ "" := resolveFrom_ne_empty h
    simp only
    rw [if_neg (by simpa using hne)]
    rfl

/-- Tables for the resolution witness. -/
def c5wTableA : Table := { cols := ["A"], rows := [] }

def c5wTableB : Table := { cols := ["X", "ACTUAL  renewal DATE"], rows := [] }

/-- Claim C5: column resolution tries the target name first and then each
alias in order, comparing headers after trimming, whitespace-collapsing and
lower-casing, and reports "not found" when nothing matches; only the
renewal-date resolution falls back to the 13th column (index 12) when at
least 13 columns exist; the partner-name column resolves by name alone; and
`main` reports a missing required column exactly when partner name
resolution fails, respectively when both renewal resolution steps fail. -/
theorem claim5_resolution (t : Table) (target : String) (aliases : List String) (c : String) :
    (resolve_renewal_column t =
      (resolve_column t RENEWAL_COLUMN RENEWAL_ALIASES).or
        (if 13 ≤ t.cols.length then t.cols.get? 12 else none)) ∧
    ((∀ w ∈ target :: aliases, ∀ c2 ∈ t.cols, normalize_colname c2 ≠ normalize_colname w) →
      resolve_column t target aliases = none) ∧
    (resolve_column t target aliases = some c →
      c ∈ t.cols ∧ ∃ w ∈ target :: aliases, normalize_colname c = normalize_colname w) ∧
    (dictGet t.cols (normalize_colname target) = some c → c ≠ "" →
      resolve_column t target aliases = some c) ∧
    ("Dealership Group Name" ∈ missing_required_columns t ↔
      resolve_column t "Dealership Group Name" [] = none) ∧
    (RENEWAL_COLUMN ∈ missing_required_columns t ↔ resolve_renewal_column t = none) := by
  refine ⟨resolve_renewal_as_fallback t, resolveFrom_none, resolveFrom_some_matched, ?_, ?_, ?_⟩
  · intro h hc
    rw [resolve_column, resolveFrom, h]
    simp only
    rw [if_neg (by simpa using hc)]
  · cases h1 : resolve_column t "Dealership Group Name" [] <;>
      cases h2 : resolve_renewal_column t <;>
      simp [missing_required_columns, h1, h2, RENEWAL_COLUMN]
  · cases h1 : resolve_column t "Dealership Group Name" [] <;>
      cases h2 : resolve_renewal_column t <;>
      simp [missing_required_columns, h1, h2, RENEWAL_COLUMN]

theorem claim5_witness :
    resolve_column c5wTableA "B" [] = none ∧
    resolve_column c5wTableB "Actual Renewal Date" [] = some "ACTUAL  renewal DATE" := by
  constructor
  · exact (claim5_resolution c5wTableA "B" [] "").2.1 (by decide)
  · exact (claim5_resolution c5wTableB "Actual Renewal Date" [] "ACTUAL  renewal DATE").2.2.2.1
      rfl (by decide)

theorem roundHalfEven_nearest (v : Rat) : |v - (roundHalfEven v : Rat)| ≤ 1 / 2 := by
  have h0 : ((Rat.floor v : Int) : Rat) ≤ v := by
    rw [ratFloor_eq]
    exact Int.floor_le v
  have h1 : v < ((Rat.floor v : Int) : Rat) + 1 := by
    rw [ratFloor_eq]
    exact Int.lt_floor_add_one v
  rw [roundHalfEven]
  by_cases hd1 : v - ((Rat.floor v : Int) : Rat) < 1 / 2
  · rw [if_pos hd1, abs_le]
    constructor <;> linarith
  · rw [if_neg hd1]
    by_cases hd2 : (1 : Rat) / 2 < v - ((Rat.floor v : Int) : Rat)
    · rw [if_pos hd2, abs_le]
      push_cast
      constructor <;> linarith
    · rw [if_neg hd2]
      have heq : v - ((Rat.floor v : Int) : Rat) = 1 / 2 :=
        le_antisymm (not_lt.mp hd2) (not_lt.mp hd1)
      by_cases hp : Rat.floor v % 2 = 0
      · rw [if_pos hp, abs_le]
        constructor <;> linarith
      · rw [if_neg hp, abs_le]
        push_cast
        constructor <;> linarith

/-- Claim C7: for every bucket subset, the revenue metric is the sum of the
cleaned monthly costs with missing values counted as zero for the summation
only, and the displayed string is that sum rounded to the nearest whole
unit (half ties to even, still within half a unit) with thousands
separators; formatting is a pure function of the sum, so stored cleaned
values are untouched. -/
theorem claim7_revenue_metric (l : List NRow) (v : Rat) :
    revenueMetric l = format_currency ((l.map (fun r => r.costNumeric.getD 0)).sum) ∧
    format_currency v = "£" ++ intWithCommas (roundHalfEven v) ∧
    |v - (roundHalfEven v : Rat)| ≤ 1 / 2 ∧
    format_currency (2500.5 : Rat) = "£2,500" ∧
    format_currency (1234567.25 : Rat) = "£1,234,567" := by
  refine ⟨rfl, rfl, roundHalfEven_nearest v, ?_, ?_⟩
  · rw [format_currency, roundHalfEven,
      show Rat.floor (2500.5 : Rat) = 2500 from by rw [ratFloor_eq, Int.floor_eq_iff]; norm_num]
    rw [if_neg (by norm_num), if_neg (by norm_num), if_pos (by decide)]
    rfl
  · rw [format_currency, roundHalfEven,
      show Rat.floor (1234567.25 : Rat) = 1234567 from by
        rw [ratFloor_eq, Int.floor_eq_iff]; norm_num]
    rw [if_pos (by norm_num)]
    rfl

theorem sorted_disp_to_rowLE (asOf : Int) {l : List NRow}
    (hc : ∀ r ∈ l, r.daysToRenewal = r.renewal - asOf)
    (hs : List.Sorted rowLEdisp l) : List.Sorted rowLE l := by
  induction l with
  | nil => exact List.sorted_nil
  | cons a l ih =>
    rw [List.sorted_cons] at hs ⊢
    obtain ⟨ha, hl⟩ := hs
    have hca : a.daysToRenewal = a.renewal - asOf := hc a (List.mem_cons_self a l)
    refine ⟨fun b hb => ?_, ih (fun r hr => hc r (List.mem_cons_of_mem a hr)) hl⟩
    have hcb : b.daysToRenewal = b.renewal - asOf := hc b (List.mem_cons_of_mem a hb)
    rcases ha b hb with hd | ⟨hd, hle⟩
    · exact Or.inl (by omega)
    · exact hle

/-- Claim C8: retained rows are always emitted sorted ascending by working
renewal date with ties broken by partner name ascending — both the
normalized working table and the per-bucket display/export tables (whose
sort key of days-to-renewal, renewal date, partner name coincides with
renewal date then name whenever days-to-renewal is the day difference to
the common as-of date); the display sort is a permutation of its input. -/
theorem claim8_sorted_output (t : Table) (asOf : Int) (l l2 : List NRow)
    (h : normalize_partners t asOf = Except.ok l)
    (h2 : ∀ r ∈ l2, r.daysToRenewal = r.renewal - asOf) :
    List.Sorted rowLE l ∧ List.Sorted rowLE (display_sort l2) ∧ List.Perm (display_sort l2) l2 := by
  obtain ⟨pc, rc, hpc, hrc, hl⟩ := normalize_partners_ok h
  refine ⟨?_, ?_, List.perm_insertionSort rowLEdisp l2⟩
  · rw [hl]
    exact List.sorted_insertionSort rowLE _
  · refine sorted_disp_to_rowLE asOf ?_ (List.sorted_insertionSort rowLEdisp l2)
    intro r hr
    exact h2 r ((List.perm_insertionSort rowLEdisp l2).mem_iff.mp hr)

theorem claim8_witness :
    List.Sorted rowLE c2wOut ∧ List.Sorted rowLE (display_sort c2wOut) ∧
      List.Perm (display_sort c2wOut) c2wOut :=
  claim8_sorted_output c2wTable 739000 c2wOut c2wOut rfl (by decide)

/-- A table with a cleanable currency cost and an unparseable cost. -/
def c6wTable : Table :=
  { cols := ["Dealership Group Name", "Actual renewal date", "Monthly subscription cost"]
    rows := [[some "A", some "2024-03-15", some "£1,250.00"],
             [some "B", some "2024-03-15", some "N/A"]] }

def c6wRowA : NRow :=
  { name := "A", renewal := 739325, cplNumeric := none, cohort := OTHER_COHORT,
    costNumeric := some 1250, daysToRenewal := 325 }

def c6wRowB : NRow :=
  { name := "B", renewal := 739325, cplNumeric := none, cohort := OTHER_COHORT,
    costNumeric := none, daysToRenewal := 325 }

/-- Claim C6: the cleaned numeric cost of every retained row is obtained by
deleting every character that is not a digit, decimal point or minus sign
from the raw cost cell and parsing the remainder as a float, empty or
unparseable remainders and missing cells becoming "no value"; a table with
no exact cost column leaves every cleaned value missing; "£1,250.00"
cleans to 1250, "" and "N/A" clean to no value; and rows are retained
regardless of their cost value. -/
theorem claim6_cost_cleaning (t : Table) (asOf : Int) (l : List NRow)
    (h : normalize_partners t asOf = Except.ok l) :
    cleanCost "£1,250.00" = "1250.00" ∧
    to_numeric (cleanCost "£1,250.00") = some 1250 ∧
    to_numeric (cleanCost "") = none ∧
    to_numeric (cleanCost "N/A") = none ∧
    ("Monthly subscription cost" ∉ t.cols → ∀ r ∈ l, r.costNumeric = none) ∧
    (∀ pc, resolve_column t "Dealership Group Name" [] = some pc →
      "Monthly subscription cost" ∈ renameCols t.cols pc "Dealership Group Name" →
      ∀ r ∈ l, ∃ row ∈ t.rows,
        r.costNumeric = (getCell (renameCols t.cols pc "Dealership Group Name") row
          "Monthly subscription cost").bind (fun s => to_numeric (cleanCost s))) ∧
    normalize_partners c6wTable 739000 = Except.ok [c6wRowA, c6wRowB] := by
  have hclean : to_numeric (cleanCost "£1,250.00") = some 1250 := by
    simp [to_numeric, cleanCost, trimChars, parseUnsigned, natOfDigits, allowedNumChar]
  refine ⟨by decide, hclean, by decide, by decide, ?_, ?_, ?_⟩
  · intro hcost r hr
    obtain ⟨pc, rc, row, hpc, hrc, hrow, hfin⟩ := mem_normalize h hr
    obtain ⟨-, -, -, -, hv, -⟩ := finalizeRow_some hfin
    exact hv.trans (enrichRow_cost_absent
      (not_mem_renameCols (show "Monthly subscription cost" ≠ "Dealership Group Name" by decide)
        hcost) rc row)
  · intro pc hpc hmem r hr
    obtain ⟨pc2, rc, row, hpc2, hrc, hrow, hfin⟩ := mem_normalize h hr
    rw [hpc] at hpc2
    injection hpc2 with hpc2
    subst hpc2
    obtain ⟨-, -, -, -, hv, -⟩ := finalizeRow_some hfin
    refine ⟨row, hrow, ?_⟩
    rw [hv]
    simp [enrichRow, hmem]
  · have base : normalize_partners c6wTable 739000 = Except.ok
        [{ name := "A", renewal := 739325, cplNumeric := none, cohort := OTHER_COHORT,
           costNumeric := to_numeric (cleanCost "£1,250.00"), daysToRenewal := 325 }, c6wRowB] :=
      rfl
    rw [hclean] at base
    exact base

theorem claim6_witness :
    c1wRow.costNumeric = none :=
  (claim6_cost_cleaning c1wTable 739000 c1wOut rfl).2.2.2.2.1 (by decide) c1wRow (by decide)
